import Mathlib

/-!
Shallow embedding of `autofile/schema/loc_maps.py`: the locator naming
library mapping chemical specifier values to directory path segments.

Chemical identifiers (InChI strings) are compared through an external
collaborator (`automol.chi`), which the spec describes only as providing a
canonical total ordering.  We therefore model identifiers as an arbitrary
type `Ich` equipped with a `LinearOrder`.  Python tuples of identifiers,
charges and multiplicities become Lean lists; the two reactant sides of a
reaction become a pair.

Python machinery used by the source and mirrored here:
* `sorted` / `automol.chi.argsort` + index permutation = stable sort of the
  zipped (identifier, charge, multiplicity) triples by identifier,
* Python tuple/list comparison = lexicographic comparison where a strict
  prefix is smaller,
* `os.path.join` = join with `'/'`,
* `'_'.join` = join with `'_'`,
* `str` on integers = decimal rendering with a leading `'-'` for negatives.
-/

/-- Three-way comparison induced by a linear order (models Python `<`/`>`
on the component values). -/
def cmp3 {α : Type*} [LinearOrder α] (a b : α) : Ordering :=
  if a < b then .lt else if b < a then .gt else .eq

/-- Lexicographic comparison of lists, exactly Python's sequence
comparison: compare elementwise, a strict prefix is smaller. -/
def cmpList {α : Type*} (c : α → α → Ordering) : List α → List α → Ordering
  | [], [] => .eq
  | [], _ :: _ => .lt
  | _ :: _, [] => .gt
  | a :: as, b :: bs =>
    match c a b with
    | .eq => cmpList c as bs
    | o => o

section LocMaps

variable {Ich : Type*} [LinearOrder Ich]

/-- One (identifier, charge, multiplicity) triple of a reactant side. -/
abbrev Triple (Ich : Type*) : Type _ := Ich × Int × Int

/-- Zip a side's identifier, charge and multiplicity tuples into triples. -/
def zip3 : List Ich → List Int → List Int → List (Triple Ich)
  | i :: is, c :: cs, m :: ms => (i, c, m) :: zip3 is cs ms
  | _, _, _ => []

/-- Unzip triples back into the three parallel tuples. -/
def unzip3 : List (Triple Ich) → List Ich × List Int × List Int
  | [] => ([], [], [])
  | (i, c, m) :: t =>
    let r := unzip3 t
    (i :: r.1, c :: r.2.1, m :: r.2.2)

/-- Ordering used by `automol.chi.argsort`: order triples by their
identifier component.  Python's sort is stable, and every stable sort with
respect to the same total preorder computes the same function, so we use
insertion sort (which is stable) as the model. -/
def keyLE (a b : Triple Ich) : Prop := a.1 ≤ b.1

instance : DecidableRel (@keyLE Ich _) :=
  fun a b => inferInstanceAs (Decidable (a.1 ≤ b.1))

instance : IsTotal (Triple Ich) keyLE := ⟨fun a b => le_total a.1 b.1⟩

instance : IsTrans (Triple Ich) keyLE := ⟨fun _ _ _ h h2 => le_trans h h2⟩

/-- `_sort_together(ichs, chgs, muls)`: permute the three parallel tuples
by the identifier sort order (`automol.chi.argsort` + index selection). -/
def sort_together1 (ichs : List Ich) (chgs muls : List Int) :
    List Ich × List Int × List Int :=
  unzip3 ((zip3 ichs chgs muls).insertionSort keyLE)

/-- `_sortable_representation(ichs, chgs, muls)`: the tuple
`(len(ichs), sorted ichs, chgs, muls)` used for side comparison.  Only the
identifiers are re-sorted; charges and multiplicities are taken as given. -/
def sortable_representation (ichs : List Ich) (chgs muls : List Int) :
    Nat × List Ich × List Int × List Int :=
  let s := ichs.insertionSort (· ≤ ·)
  (s.length, s, chgs, muls)

/-- Python `>` on the sortable representations: lexicographic tuple
comparison (length, identifiers, charges, multiplicities). -/
def cmpRep (r s : Nat × List Ich × List Int × List Int) : Ordering :=
  (cmp3 r.1 s.1).then
    ((cmpList cmp3 r.2.1 s.2.1).then
      ((cmpList cmp3 r.2.2.1 s.2.2.1).then
        (cmpList cmp3 r.2.2.2 s.2.2.2)))

/-- `reaction_is_reversed(rxn_ichs, rxn_chgs, rxn_muls)`: sort each side,
then compare the two sortable representations with Python `>`. -/
def reaction_is_reversed (rxn_ichs : List Ich × List Ich)
    (rxn_chgs rxn_muls : List Int × List Int) : Bool :=
  let s1 := sort_together1 rxn_ichs.1 rxn_chgs.1 rxn_muls.1
  let s2 := sort_together1 rxn_ichs.2 rxn_chgs.2 rxn_muls.2
  cmpRep (sortable_representation s1.1 s1.2.1 s1.2.2)
         (sortable_representation s2.1 s2.2.1 s2.2.2) == .gt

/-- `sort_together(rxn_ichs, rxn_chgs, rxn_muls)`: sort each side
internally, then swap the two sides when `reaction_is_reversed` holds. -/
def sort_together (rxn_ichs : List Ich × List Ich)
    (rxn_chgs rxn_muls : List Int × List Int) :
    (List Ich × List Ich) × (List Int × List Int) × (List Int × List Int) :=
  let s1 := sort_together1 rxn_ichs.1 rxn_chgs.1 rxn_muls.1
  let s2 := sort_together1 rxn_ichs.2 rxn_chgs.2 rxn_muls.2
  if reaction_is_reversed rxn_ichs rxn_chgs rxn_muls then
    ((s2.1, s1.1), (s2.2.1, s1.2.1), (s2.2.2, s1.2.2))
  else
    ((s1.1, s2.1), (s1.2.1, s2.2.1), (s1.2.2, s2.2.2))

end LocMaps

/-! ### String utilities: Python `str`, f-string formatting, `join` -/

/-- Decimal digit character. -/
def digitChar (d : Nat) : Char := Char.ofNat (48 + d)

/-- Digit expansion worker with an explicit fuel bound, so that the
recursion is structural and kernel-reducible.  The fuel never runs out
when it starts at `n + 1`. -/
def natCharsAux : Nat → Nat → List Char
  | 0, _ => []
  | fuel + 1, n =>
    if n < 10 then [digitChar n]
    else natCharsAux fuel (n / 10) ++ [digitChar (n % 10)]

/-- Decimal digit characters of a natural number, most significant first
(Python `str` on a non-negative integer). -/
def natChars (n : Nat) : List Char := natCharsAux (n + 1) n

/-- Python `str` on an integer: optional minus sign, then digits. -/
def intChars (i : Int) : List Char :=
  (if i < 0 then ['-'] else []) ++ natChars i.natAbs

/-- Python `str` on an integer, as a string. -/
def intStr (i : Int) : String := ⟨intChars i⟩

/-- Left-pad with a fill character up to a minimum width (the padding part
of Python's `{:02d}` and `{:0>2d}` format specs). -/
def padLeft (fill : Char) (w : Nat) (l : List Char) : List Char :=
  List.replicate (w - l.length) fill ++ l

/-- `f'{n:02d}'` on a natural number. -/
def pad2 (n : Nat) : String := ⟨padLeft '0' 2 (natChars n)⟩

/-- `f'{i:0>2d}'` on an integer. -/
def pad2w (i : Int) : String := ⟨padLeft '0' 2 (intChars i)⟩

/-- `sep.join(parts)` on character lists. -/
def sepJoin (sep : List Char) : List (List Char) → List Char
  | [] => []
  | [x] => x
  | x :: xs => x ++ sep ++ sepJoin sep xs

/-- `'_'.join(parts)`. -/
def underscoreJoin (parts : List String) : String :=
  ⟨sepJoin ['_'] (parts.map String.data)⟩

/-- `os.path.join(*parts)` with the POSIX separator. -/
def pathJoin (parts : List String) : String :=
  ⟨sepJoin ['/'] (parts.map String.data)⟩

/-- Python `int()` applied to a string of decimal digits. -/
def strToNat (s : String) : Nat :=
  s.data.foldl (fun a c => a * 10 + (c.toNat - 48)) 0

/-- The spec's claimed filesystem-safe character set: alphanumerics,
underscore, hyphen and `'@'` (plus the path separator for multi-segment
results). -/
def specSafeChar (c : Char) : Bool :=
  c.isAlphanum || c == '_' || c == '-' || c == '@' || c == '/'

/-- The characters that actually occur in scan leaf names: digits, the
minus sign, the decimal point and the underscore separator. -/
def scanChar (c : Char) : Bool :=
  c.isDigit || c == '_' || c == '-' || c == '.'

/-! ### External collaborator model -/

/-- Modelled from the spec: the contracts of the external collaborators
used by the naming functions.  The chemical identifier library
(`automol.chi` / `automol.inchi_key`) and the repository utilities
`_is_valid_inchi_multiplicity`, `_is_random_string_identifier` and
`safemode_is_on` are outside this source slice; §6 of the spec describes
them only as: canonical-form check, completeness check, formula
extraction, identifier-derived two-part hash key, multi-identifier join,
identifier comparison/sort key, and a charge/multiplicity validity
predicate.  They are therefore abstract function-valued fields, and the
safe-mode flag is an explicit boolean argument of each function that reads
it (the modelling the spec's design notes themselves propose). -/
structure ChemExt (Ich : Type*) where
  isStandardForm : Ich → Bool
  isComplete : Ich → Bool
  sortedIchs : List Ich → List Ich
  isValidMul : Ich → Int → Int → Bool
  isValidMulNoChg : Ich → Int → Bool
  joinStd : List Ich → Ich
  inchiKey : Ich → String
  formulaLayer : Ich → String
  firstHash : String → String
  secondHashExt : String → String

section LocMaps3

variable {Ich : Type*} [LinearOrder Ich]

/-- `species_leaf(ich, chg, mul)`: canonical-form and completeness
assertions only under safe mode, then the (unconditional) chemical
validity assertion, then the 5-segment path.  Assertion failures are
`none`; the charge/multiplicity integer-type assertions are enforced by
the `Int` argument types. -/
def species_leaf (ext : ChemExt Ich) (safemode : Bool) (ich : Ich)
    (chg mul : Int) : Option String :=
  if safemode ∧ ¬(ext.isStandardForm ich ∧ ext.isComplete ich) then none
  else if ¬ ext.isValidMul ich mul chg then none
  else
    let ick := ext.inchiKey ich
    some (pathJoin [ext.formulaLayer ich, ext.firstHash ick, intStr chg,
      intStr mul, ext.secondHashExt ick])

/-- `_reactant_leaf(ichs, chgs, muls)`: safe-mode canonical-form,
completeness and sortedness assertions, then length and validity
assertions, then the 5-segment path with underscore-joined charges and
multiplicities. -/
def reactant_leaf (ext : ChemExt Ich) (safemode : Bool) (ichs : List Ich)
    (chgs muls : List Int) : Option String :=
  if safemode ∧ ¬(ichs.all ext.isStandardForm ∧ ichs.all ext.isComplete ∧
      ichs = ext.sortedIchs ichs) then none
  else if ¬(ichs.length = chgs.length ∧ chgs.length = muls.length) then none
  else if ¬((ichs.zip muls).all fun p => ext.isValidMulNoChg p.1 p.2) then none
  else
    let ich := ext.joinStd ichs
    let ick := ext.inchiKey ich
    some (pathJoin [ext.formulaLayer ich, ext.firstHash ick,
      underscoreJoin (chgs.map intStr), underscoreJoin (muls.map intStr),
      ext.secondHashExt ick])

/-- `reaction_leaf(rxn_ichs, rxn_chgs, rxn_muls, ts_mul)`: safe-mode
assertion that the input is already canonically sorted, then the two
reactant leaves and the transition-state multiplicity joined as a path. -/
def reaction_leaf (ext : ChemExt Ich) (safemode : Bool)
    (rxn_ichs : List Ich × List Ich) (rxn_chgs rxn_muls : List Int × List Int)
    (ts_mul : Int) : Option String :=
  if safemode ∧ ¬((rxn_ichs, rxn_chgs, rxn_muls) =
      sort_together rxn_ichs rxn_chgs rxn_muls) then none
  else
    match reactant_leaf ext safemode rxn_ichs.1 rxn_chgs.1 rxn_muls.1,
          reactant_leaf ext safemode rxn_ichs.2 rxn_chgs.2 rxn_muls.2 with
    | some s1, some s2 => some (pathJoin [s1, s2, intStr ts_mul])
    | _, _ => none

end LocMaps3

/-! ### Numeric, run and identifier leaves -/

/-- `transition_state_leaf(num)`: integer in `[0, 99]` rendered as
`f'{num:02d}'`; out-of-range (and non-integer, by typing) fails. -/
def transition_state_leaf (num : Int) : Option String :=
  if 0 ≤ num ∧ num ≤ 99 then some (pad2 num.toNat) else none

/-- `zmatrix_leaf(num)`: same contract as `transition_state_leaf`. -/
def zmatrix_leaf (num : Int) : Option String :=
  if 0 ≤ num ∧ num ≤ 99 then some (pad2 num.toNat) else none

/-- `vrctst_leaf(num)`: same contract as `transition_state_leaf`. -/
def vrctst_leaf (num : Int) : Option String :=
  if 0 ≤ num ∧ num ≤ 99 then some (pad2 num.toNat) else none

/-- `string.ascii_uppercase`. -/
def ascii_uppercase : List Char := "ABCDEFGHIJKLMNOPQRSTUVWXYZ".data

/-- `subrun_leaf(macro_idx, micro_idx)`: asserts `macro_idx < 26` (no
lower bound), then indexes `string.ascii_uppercase` with Python indexing
semantics (negative indices wrap from the end, out-of-range raises) and
appends `f'{micro_idx:0>2d}'`. -/
def subrun_leaf (macro_idx micro_idx : Int) : Option String :=
  if macro_idx < 26 then
    let idx : Int := if 0 ≤ macro_idx then macro_idx else macro_idx + 26
    if 0 ≤ idx ∧ idx < 26 then
      some ⟨ascii_uppercase.getD idx.toNat 'A' :: (pad2w micro_idx).data⟩
    else none
  else none

/-- `conformer_branch(rid)`: asserts the `'r'` tag (an empty string fails
on the index access) and the random-string-identifier predicate, then
returns the input unchanged.  The predicate is repository code outside
this slice, modelled from the spec as an abstract `isRSI` argument. -/
def conformer_branch (isRSI : String → Bool) (rid : String) : Option String :=
  match rid.data with
  | [] => none
  | c :: rest => if c = 'r' ∧ isRSI ⟨rest⟩ then some rid else none

/-- `conformer_leaf(cid)`: the same with tag `'c'`. -/
def conformer_leaf (isRSI : String → Bool) (cid : String) : Option String :=
  match cid.data with
  | [] => none
  | c :: rest => if c = 'c' ∧ isRSI ⟨rest⟩ then some cid else none

/-- `tau_leaf(tid)`: the same with tag `'t'`. -/
def tau_leaf (isRSI : String → Bool) (tid : String) : Option String :=
  match tid.data with
  | [] => none
  | c :: rest => if c = 't' ∧ isRSI ⟨rest⟩ then some tid else none

/-! ### Scan leaves

Python float coordinate values are modelled as rationals.  `f'{val:.2f}'`
renders the value rounded to hundredths with exactly two decimal places;
the spec (§9) explicitly leaves the tie-breaking rounding policy open, and
none of the claims depend on it, so the model uses `round` (half away from
floor).  Non-finite floats do not arise in the claims. -/

/-- `f'{val:.2f}'` on a rational value. -/
def format2f (q : ℚ) : String :=
  let n : Int := round (q * 100)
  ⟨(if n < 0 then ['-'] else []) ++ natChars (n.natAbs / 100) ++
    '.' :: padLeft '0' 2 (natChars (n.natAbs % 100))⟩

/-- `scan_leaf(coo_vals)`: the 2-decimal renderings of the coordinate
values, underscore-joined in caller order. -/
def scan_leaf (coo_vals : List ℚ) : String :=
  ⟨sepJoin ['_'] (coo_vals.map fun v => (format2f v).data)⟩

/-- `cscan_leaf(coo_vals)`: identical body to `scan_leaf`. -/
def cscan_leaf (coo_vals : List ℚ) : String :=
  ⟨sepJoin ['_'] (coo_vals.map fun v => (format2f v).data)⟩

/-- `get_next_build_number(num)`: `int(num % 10)` with Python's
non-negative remainder for a positive modulus, which is exactly `Int.emod`. -/
def get_next_build_number (num : Int) : Int := num % 10

/-- A concrete instantiation of the external collaborators (identifiers
taken as integers) whose validity predicate rejects every combination.
Chemically invalid (identifier, charge, multiplicity) combinations exist
(the electron-count parity rule), so the claims quantifying over the
collaborator contract can be tested against such an instantiation. -/
def extAllInvalid : ChemExt Int where
  isStandardForm := fun _ => true
  isComplete := fun _ => true
  sortedIchs := fun l => l
  isValidMul := fun _ _ _ => false
  isValidMulNoChg := fun _ _ => false
  joinStd := fun _ => 0
  inchiKey := fun _ => "KEY"
  formulaLayer := fun _ => "F"
  firstHash := fun s => s
  secondHashExt := fun s => s

example : scan_leaf [1, 2] = "1.00_2.00" := by
  have h1 : round ((1 : ℚ) * 100) = (100 : Int) := by norm_num [round_eq]
  have h2 : round ((2 : ℚ) * 100) = (200 : Int) := by norm_num [round_eq]
  simp only [scan_leaf, format2f, List.map_cons, List.map_nil, h1, h2]
  decide

example : format2f (-1/2) = "-0.50" := by
  have h1 : round ((-1/2 : ℚ) * 100) = (-50 : Int) := by norm_num [round_eq]
  simp only [format2f, h1]
  decide
example : pad2w (-1) = "-1" := by decide
example : subrun_leaf 0 3 = some "A03" := by decide
example : subrun_leaf (-1) 0 = some "Z00" := by decide
example : subrun_leaf (-27) 0 = none := by decide
example : get_next_build_number (-1) = 9 := by decide
example : transition_state_leaf 7 = some "07" := by decide

example :
    sort_together (([2], [1]) : List Int × List Int) ([5], [6]) ([7], [8]) =
      ((([1], [2]), ([6], [5]), ([8], [7]))) := by
  decide

/-! ### Comparison lemmas -/

theorem cmp3_eq_iff {α : Type*} [LinearOrder α] {a b : α} :
    cmp3 a b = .eq ↔ a = b := by
  unfold cmp3
  rcases lt_trichotomy a b with h | h | h
  · simp [h, h.ne]
  · simp [h, lt_irrefl]
  · simp [h, h.ne', not_lt_of_gt h]

theorem ordBeq_gt_iff (o : Ordering) : (o == Ordering.gt) = true ↔ o = .gt := by
  cases o <;> decide

theorem ordBeq_gt_false_iff (o : Ordering) : (o == Ordering.gt) = false ↔ o ≠ .gt := by
  cases o <;> decide

theorem ordSwap_lt : Ordering.lt.swap = .gt := rfl

theorem ordSwap_gt : Ordering.gt.swap = .lt := rfl

theorem ordSwap_eq : Ordering.eq.swap = .eq := rfl

theorem cmp3_swap {α : Type*} [LinearOrder α] (a b : α) :
    cmp3 a b = (cmp3 b a).swap := by
  unfold cmp3
  rcases lt_trichotomy a b with h | h | h
  · simp [h, not_lt_of_gt h, ordSwap_gt]
  · simp [h, lt_irrefl, ordSwap_eq]
  · simp [h, not_lt_of_gt h, ordSwap_lt]

theorem cmpList_eq_iff {α : Type*} (c : α → α → Ordering)
    (hc : ∀ a b, c a b = .eq ↔ a = b) :
    ∀ l1 l2 : List α, cmpList c l1 l2 = .eq ↔ l1 = l2
  | [], [] => by simp [cmpList]
  | [], _ :: _ => by simp [cmpList]
  | _ :: _, [] => by simp [cmpList]
  | a :: as, b :: bs => by
    simp only [cmpList]
    cases h : c a b with
    | lt =>
      have hab : a ≠ b := fun hab => by simp [(hc a b).mpr hab] at h
      simp [hab]
    | gt =>
      have hab : a ≠ b := fun hab => by simp [(hc a b).mpr hab] at h
      simp [hab]
    | eq => simp [cmpList_eq_iff c hc as bs, (hc a b).mp h]

theorem cmpList_swap {α : Type*} (c : α → α → Ordering)
    (hc : ∀ a b, c a b = (c b a).swap) :
    ∀ l1 l2 : List α, cmpList c l1 l2 = (cmpList c l2 l1).swap
  | [], [] => by simp [cmpList, ordSwap_eq]
  | [], _ :: _ => by simp [cmpList, ordSwap_gt]
  | _ :: _, [] => by simp [cmpList, ordSwap_lt]
  | a :: as, b :: bs => by
    simp only [cmpList]
    rw [hc a b]
    cases c b a with
    | lt => simp [ordSwap_lt, ordSwap_gt]
    | gt => simp [ordSwap_lt, ordSwap_gt]
    | eq => simpa [ordSwap_eq] using cmpList_swap c hc as bs

section LocMaps2

variable {Ich : Type*} [LinearOrder Ich]

theorem cmpRep_eq_iff (r s : Nat × List Ich × List Int × List Int) :
    cmpRep r s = .eq ↔ r = s := by
  unfold cmpRep
  simp only [Ordering.then_eq_eq, cmp3_eq_iff,
    cmpList_eq_iff cmp3 (fun _ _ => cmp3_eq_iff)]
  constructor
  · rintro ⟨h1, h2, h3, h4⟩
    exact Prod.ext h1 (Prod.ext h2 (Prod.ext h3 h4))
  · rintro rfl
    exact ⟨rfl, rfl, rfl, rfl⟩

theorem cmpRep_swap (r s : Nat × List Ich × List Int × List Int) :
    cmpRep r s = (cmpRep s r).swap := by
  unfold cmpRep
  rw [Ordering.swap_then, Ordering.swap_then, Ordering.swap_then]
  rw [← cmp3_swap, ← cmpList_swap cmp3 cmp3_swap, ← cmpList_swap cmp3 cmp3_swap,
    ← cmpList_swap cmp3 cmp3_swap]

/-! ### Sorting lemmas -/

theorem zip3_unzip3 : ∀ l : List (Triple Ich),
    zip3 (unzip3 l).1 (unzip3 l).2.1 (unzip3 l).2.2 = l
  | [] => rfl
  | (i, c, m) :: t => by
    simp only [unzip3, zip3]
    exact congrArg _ (zip3_unzip3 t)

theorem unzip3_fst : ∀ l : List (Triple Ich), (unzip3 l).1 = l.map (·.1)
  | [] => rfl
  | (i, c, m) :: t => by
    simp only [unzip3, List.map]
    exact congrArg _ (unzip3_fst t)

/-- Applying the per-side sort to its own output changes nothing. -/
theorem sort_together1_idem (ichs : List Ich) (chgs muls : List Int) :
    sort_together1 (sort_together1 ichs chgs muls).1
        (sort_together1 ichs chgs muls).2.1
        (sort_together1 ichs chgs muls).2.2 =
      sort_together1 ichs chgs muls := by
  unfold sort_together1
  rw [zip3_unzip3]
  rw [List.Sorted.insertionSort_eq (List.sorted_insertionSort keyLE _)]

/-- The identifier component of a sorted side is sorted. -/
theorem sort_together1_fst_sorted (ichs : List Ich) (chgs muls : List Int) :
    ((sort_together1 ichs chgs muls).1).Sorted (· ≤ ·) := by
  unfold sort_together1
  rw [unzip3_fst]
  exact (List.sorted_insertionSort keyLE _).map _ (fun _ _ h => h)

/-- The sortable representation of an already-sorted side keeps the side's
identifier tuple unchanged. -/
theorem sortable_representation_of_sorted {ichs : List Ich}
    (h : ichs.Sorted (· ≤ ·)) (chgs muls : List Int) :
    sortable_representation ichs chgs muls = (ichs.length, ichs, chgs, muls) := by
  unfold sortable_representation
  rw [List.Sorted.insertionSort_eq h]

end LocMaps2


/-! ### Claims about reaction canonicalization (C1 - C3) -/

section Claims123

variable {Ich : Type*} [LinearOrder Ich]

/-- The sortable representation of an already per-side-sorted side is the
side itself, prefixed with its length. -/
theorem rep_sorted_side (ichs : List Ich) (chgs muls : List Int) :
    sortable_representation (sort_together1 ichs chgs muls).1
        (sort_together1 ichs chgs muls).2.1
        (sort_together1 ichs chgs muls).2.2 =
      ((sort_together1 ichs chgs muls).1.length,
       (sort_together1 ichs chgs muls).1,
       (sort_together1 ichs chgs muls).2.1,
       (sort_together1 ichs chgs muls).2.2) :=
  sortable_representation_of_sorted (sort_together1_fst_sorted ichs chgs muls) _ _

/-- Branch-swapping helper for an `if` over an `Ordering` value and its
swap: when the value is `.eq` the two branches must agree. -/
theorem ord_swap_ite {β : Type*} (o : Ordering) (a b : β) (h : o = .eq → a = b) :
    (if (o.swap == Ordering.gt) = true then a else b) =
      (if (o == Ordering.gt) = true then b else a) := by
  cases o with
  | lt => rfl
  | eq => exact (h rfl).symm
  | gt => rfl

/-- Swapping the two sides of the reaction input does not change the
output of `sort_together`. -/
theorem sort_together_swap (i1 i2 : List Ich) (c1 c2 m1 m2 : List Int) :
    sort_together (i2, i1) (c2, c1) (m2, m1) =
      sort_together (i1, i2) (c1, c2) (m1, m2) := by
  unfold sort_together reaction_is_reversed
  simp only
  have hswap := cmpRep_swap
    (sortable_representation (sort_together1 i2 c2 m2).1
      (sort_together1 i2 c2 m2).2.1 (sort_together1 i2 c2 m2).2.2)
    (sortable_representation (sort_together1 i1 c1 m1).1
      (sort_together1 i1 c1 m1).2.1 (sort_together1 i1 c1 m1).2.2)
  simp only [hswap]
  apply ord_swap_ite
  intro hc
  have heq := (cmpRep_eq_iff _ _).mp hc
  rw [rep_sorted_side, rep_sorted_side] at heq
  have h1 : (sort_together1 i1 c1 m1).1 = (sort_together1 i2 c2 m2).1 :=
    congrArg (fun p => p.2.1) heq
  have h2 : (sort_together1 i1 c1 m1).2.1 = (sort_together1 i2 c2 m2).2.1 :=
    congrArg (fun p => p.2.2.1) heq
  have h3 : (sort_together1 i1 c1 m1).2.2 = (sort_together1 i2 c2 m2).2.2 :=
    congrArg (fun p => p.2.2.2) heq
  rw [h1, h2, h3]

/-- C1: for every two-sided reaction input and its structurally reversed
counterpart (the two sides swapped), `sort_together` gives the same
canonical form, and consequently `reaction_leaf` applied to the
canonicalized forms of the reaction and of its reverse yields the same
path string. -/
theorem sort_together_reverse_invariant (ext : ChemExt Ich) (safemode : Bool)
    (rxn_ichs : List Ich × List Ich) (rxn_chgs rxn_muls : List Int × List Int)
    (ts_mul : Int) :
    sort_together (rxn_ichs.2, rxn_ichs.1) (rxn_chgs.2, rxn_chgs.1)
        (rxn_muls.2, rxn_muls.1) =
      sort_together rxn_ichs rxn_chgs rxn_muls ∧
    reaction_leaf ext safemode
        (sort_together (rxn_ichs.2, rxn_ichs.1) (rxn_chgs.2, rxn_chgs.1)
          (rxn_muls.2, rxn_muls.1)).1
        (sort_together (rxn_ichs.2, rxn_ichs.1) (rxn_chgs.2, rxn_chgs.1)
          (rxn_muls.2, rxn_muls.1)).2.1
        (sort_together (rxn_ichs.2, rxn_ichs.1) (rxn_chgs.2, rxn_chgs.1)
          (rxn_muls.2, rxn_muls.1)).2.2 ts_mul =
      reaction_leaf ext safemode
        (sort_together rxn_ichs rxn_chgs rxn_muls).1
        (sort_together rxn_ichs rxn_chgs rxn_muls).2.1
        (sort_together rxn_ichs rxn_chgs rxn_muls).2.2 ts_mul := by
  have main :
      sort_together (rxn_ichs.2, rxn_ichs.1) (rxn_chgs.2, rxn_chgs.1)
          (rxn_muls.2, rxn_muls.1) =
        sort_together rxn_ichs rxn_chgs rxn_muls := by
    rw [sort_together_swap]
  exact ⟨main, by rw [main]⟩

/-- `sort_together` on a pair of sides that are already individually
sorted and already in canonical order returns them unchanged. -/
theorem sort_together_of_canonical (a b : List Ich × List Int × List Int)
    (ha : sort_together1 a.1 a.2.1 a.2.2 = a)
    (hb : sort_together1 b.1 b.2.1 b.2.2 = b)
    (hab : cmpRep (sortable_representation a.1 a.2.1 a.2.2)
      (sortable_representation b.1 b.2.1 b.2.2) ≠ .gt) :
    sort_together (a.1, b.1) (a.2.1, b.2.1) (a.2.2, b.2.2) =
      ((a.1, b.1), (a.2.1, b.2.1), (a.2.2, b.2.2)) := by
  unfold sort_together reaction_is_reversed
  simp [ha, hb, ordBeq_gt_iff, hab]

/-- C2: `sort_together` is idempotent: for every two-sided input with
matching per-side lengths, applying it to its own output returns that
output unchanged. -/
theorem sort_together_idempotent (rxn_ichs : List Ich × List Ich)
    (rxn_chgs rxn_muls : List Int × List Int)
    (hlen1 : rxn_ichs.1.length = rxn_chgs.1.length ∧
      rxn_chgs.1.length = rxn_muls.1.length)
    (hlen2 : rxn_ichs.2.length = rxn_chgs.2.length ∧
      rxn_chgs.2.length = rxn_muls.2.length) :
    sort_together (sort_together rxn_ichs rxn_chgs rxn_muls).1
        (sort_together rxn_ichs rxn_chgs rxn_muls).2.1
        (sort_together rxn_ichs rxn_chgs rxn_muls).2.2 =
      sort_together rxn_ichs rxn_chgs rxn_muls := by
  have ia := sort_together1_idem rxn_ichs.1 rxn_chgs.1 rxn_muls.1
  have ib := sort_together1_idem rxn_ichs.2 rxn_chgs.2 rxn_muls.2
  cases hrev : reaction_is_reversed rxn_ichs rxn_chgs rxn_muls with
  | false =>
    have hab : cmpRep
        (sortable_representation (sort_together1 rxn_ichs.1 rxn_chgs.1 rxn_muls.1).1
          (sort_together1 rxn_ichs.1 rxn_chgs.1 rxn_muls.1).2.1
          (sort_together1 rxn_ichs.1 rxn_chgs.1 rxn_muls.1).2.2)
        (sortable_representation (sort_together1 rxn_ichs.2 rxn_chgs.2 rxn_muls.2).1
          (sort_together1 rxn_ichs.2 rxn_chgs.2 rxn_muls.2).2.1
          (sort_together1 rxn_ichs.2 rxn_chgs.2 rxn_muls.2).2.2) ≠ .gt := by
      unfold reaction_is_reversed at hrev
      simpa [ordBeq_gt_false_iff] using hrev
    have hx : sort_together rxn_ichs rxn_chgs rxn_muls =
        (((sort_together1 rxn_ichs.1 rxn_chgs.1 rxn_muls.1).1,
          (sort_together1 rxn_ichs.2 rxn_chgs.2 rxn_muls.2).1),
         ((sort_together1 rxn_ichs.1 rxn_chgs.1 rxn_muls.1).2.1,
          (sort_together1 rxn_ichs.2 rxn_chgs.2 rxn_muls.2).2.1),
         ((sort_together1 rxn_ichs.1 rxn_chgs.1 rxn_muls.1).2.2,
          (sort_together1 rxn_ichs.2 rxn_chgs.2 rxn_muls.2).2.2)) := by
      unfold sort_together
      simp [hrev]
    rw [hx]
    exact sort_together_of_canonical _ _ ia ib hab
  | true =>
    have hab : cmpRep
        (sortable_representation (sort_together1 rxn_ichs.2 rxn_chgs.2 rxn_muls.2).1
          (sort_together1 rxn_ichs.2 rxn_chgs.2 rxn_muls.2).2.1
          (sort_together1 rxn_ichs.2 rxn_chgs.2 rxn_muls.2).2.2)
        (sortable_representation (sort_together1 rxn_ichs.1 rxn_chgs.1 rxn_muls.1).1
          (sort_together1 rxn_ichs.1 rxn_chgs.1 rxn_muls.1).2.1
          (sort_together1 rxn_ichs.1 rxn_chgs.1 rxn_muls.1).2.2) ≠ .gt := by
      have hg : cmpRep
          (sortable_representation (sort_together1 rxn_ichs.1 rxn_chgs.1 rxn_muls.1).1
            (sort_together1 rxn_ichs.1 rxn_chgs.1 rxn_muls.1).2.1
            (sort_together1 rxn_ichs.1 rxn_chgs.1 rxn_muls.1).2.2)
          (sortable_representation (sort_together1 rxn_ichs.2 rxn_chgs.2 rxn_muls.2).1
            (sort_together1 rxn_ichs.2 rxn_chgs.2 rxn_muls.2).2.1
            (sort_together1 rxn_ichs.2 rxn_chgs.2 rxn_muls.2).2.2) = .gt := by
        unfold reaction_is_reversed at hrev
        simpa [ordBeq_gt_iff] using hrev
      rw [cmpRep_swap, hg]
      simp [ordSwap_gt]
    have hx : sort_together rxn_ichs rxn_chgs rxn_muls =
        (((sort_together1 rxn_ichs.2 rxn_chgs.2 rxn_muls.2).1,
          (sort_together1 rxn_ichs.1 rxn_chgs.1 rxn_muls.1).1),
         ((sort_together1 rxn_ichs.2 rxn_chgs.2 rxn_muls.2).2.1,
          (sort_together1 rxn_ichs.1 rxn_chgs.1 rxn_muls.1).2.1),
         ((sort_together1 rxn_ichs.2 rxn_chgs.2 rxn_muls.2).2.2,
          (sort_together1 rxn_ichs.1 rxn_chgs.1 rxn_muls.1).2.2)) := by
      unfold sort_together
      simp [hrev]
    rw [hx]
    exact sort_together_of_canonical _ _ ib ia hab

/-- C3: `reaction_is_reversed` and `sort_together` agree: when the former
is true, the latter returns the two per-side-sorted sides swapped; when
false, it returns them in their original order. -/
theorem reaction_is_reversed_consistent (rxn_ichs : List Ich × List Ich)
    (rxn_chgs rxn_muls : List Int × List Int) :
    (reaction_is_reversed rxn_ichs rxn_chgs rxn_muls = true →
      sort_together rxn_ichs rxn_chgs rxn_muls =
        (((sort_together1 rxn_ichs.2 rxn_chgs.2 rxn_muls.2).1,
          (sort_together1 rxn_ichs.1 rxn_chgs.1 rxn_muls.1).1),
         ((sort_together1 rxn_ichs.2 rxn_chgs.2 rxn_muls.2).2.1,
          (sort_together1 rxn_ichs.1 rxn_chgs.1 rxn_muls.1).2.1),
         ((sort_together1 rxn_ichs.2 rxn_chgs.2 rxn_muls.2).2.2,
          (sort_together1 rxn_ichs.1 rxn_chgs.1 rxn_muls.1).2.2))) ∧
    (reaction_is_reversed rxn_ichs rxn_chgs rxn_muls = false →
      sort_together rxn_ichs rxn_chgs rxn_muls =
        (((sort_together1 rxn_ichs.1 rxn_chgs.1 rxn_muls.1).1,
          (sort_together1 rxn_ichs.2 rxn_chgs.2 rxn_muls.2).1),
         ((sort_together1 rxn_ichs.1 rxn_chgs.1 rxn_muls.1).2.1,
          (sort_together1 rxn_ichs.2 rxn_chgs.2 rxn_muls.2).2.1),
         ((sort_together1 rxn_ichs.1 rxn_chgs.1 rxn_muls.1).2.2,
          (sort_together1 rxn_ichs.2 rxn_chgs.2 rxn_muls.2).2.2))) := by
  constructor <;> intro h <;> unfold sort_together <;> simp [h]

end Claims123

/-- Witness for C2 at a concrete input with matching lengths. -/
theorem sort_together_idempotent_witness :
    sort_together (sort_together (([2], [1]) : List Int × List Int) ([5], [6]) ([7], [8])).1
        (sort_together (([2], [1]) : List Int × List Int) ([5], [6]) ([7], [8])).2.1
        (sort_together (([2], [1]) : List Int × List Int) ([5], [6]) ([7], [8])).2.2 =
      sort_together (([2], [1]) : List Int × List Int) ([5], [6]) ([7], [8]) :=
  sort_together_idempotent _ _ _ (by decide) (by decide)

/-- Witness for C3: one reversed and one non-reversed concrete input. -/
theorem reaction_is_reversed_consistent_witness :
    (sort_together (([2], [1]) : List Int × List Int) ([5], [6]) ([7], [8]) =
      (((sort_together1 [1] [6] [8]).1, (sort_together1 [2] [5] [7]).1),
       ((sort_together1 [1] [6] [8]).2.1, (sort_together1 [2] [5] [7]).2.1),
       ((sort_together1 [1] [6] [8]).2.2, (sort_together1 [2] [5] [7]).2.2))) ∧
    (sort_together (([1], [2]) : List Int × List Int) ([5], [6]) ([7], [8]) =
      (((sort_together1 [1] [5] [7]).1, (sort_together1 [2] [6] [8]).1),
       ((sort_together1 [1] [5] [7]).2.1, (sort_together1 [2] [6] [8]).2.1),
       ((sort_together1 [1] [5] [7]).2.2, (sort_together1 [2] [6] [8]).2.2))) :=
  ⟨(reaction_is_reversed_consistent ([2], [1]) ([5], [6]) ([7], [8])).1 (by decide),
   (reaction_is_reversed_consistent ([1], [2]) ([5], [6]) ([7], [8])).2 (by decide)⟩

example :
    sort_together (([1, 3], [2]) : List Int × List Int) ([4, 5], [6]) ([7, 8], [9]) =
      ((([2], [1, 3]), ([6], [4, 5]), ([9], [7, 8]))) := by
  decide

/-! ### Claim C5: safe mode and the validity check in `species_leaf` -/

/-- C5 counterexample: with safe mode disabled, `species_leaf` still fails
(returns `none`) on a chemically invalid charge/multiplicity combination,
because the validity assertion is outside the safe-mode guard in the
source. -/
theorem species_leaf_counterexample :
    species_leaf extAllInvalid false 0 0 2 = none := by decide

/-- C5 amended: only the canonical-form and completeness checks are gated
by safe mode; the chemical validity check runs unconditionally.  With safe
mode off, `species_leaf` succeeds exactly when the combination is valid;
with safe mode on, the canonical checks are additionally enforced. -/
theorem species_leaf_safemode {Ich : Type*} [LinearOrder Ich]
    (ext : ChemExt Ich) (ich : Ich) (chg mul : Int) :
    (species_leaf ext false ich chg mul).isSome = ext.isValidMul ich mul chg ∧
    (ext.isStandardForm ich ∧ ext.isComplete ich →
      (species_leaf ext true ich chg mul).isSome = ext.isValidMul ich mul chg) ∧
    (¬(ext.isStandardForm ich ∧ ext.isComplete ich) →
      species_leaf ext true ich chg mul = none) := by
  refine ⟨?_, fun hc => ?_, fun hc => ?_⟩
  · unfold species_leaf
    cases hv : ext.isValidMul ich mul chg <;> simp [hv]
  · unfold species_leaf
    cases hv : ext.isValidMul ich mul chg <;> simp [hv, hc]
  · unfold species_leaf
    cases hv : ext.isValidMul ich mul chg <;> simp [hv, hc]

/-- Witness for C5's amended theorem at a concrete instantiation. -/
theorem species_leaf_safemode_witness :
    (species_leaf extAllInvalid false 0 0 2).isSome =
      extAllInvalid.isValidMul 0 2 0 ∧
    (species_leaf extAllInvalid true 0 0 2).isSome =
      extAllInvalid.isValidMul 0 2 0 :=
  ⟨(species_leaf_safemode extAllInvalid 0 0 2).1,
   (species_leaf_safemode extAllInvalid 0 0 2).2.1 (by decide)⟩

/-! ### Claim C6: numeric leaves -/

/-- Two-digit zero-padded rendering of naturals below 100 has length two
and parses back to the input. -/
theorem pad2_roundtrip :
    ∀ m : Nat, m < 100 → (pad2 m).length = 2 ∧ strToNat (pad2 m) = m := by
  decide

/-- C6: `transition_state_leaf`, `zmatrix_leaf` and `vrctst_leaf` return
the 2-digit zero-padded decimal string for integers in `[0, 99]`, which
parses back via integer conversion; 100 and -1 fail (and non-integer
arguments are excluded by typing). -/
theorem numeric_leaf_contract :
    (∀ n : Int, 0 ≤ n → n ≤ 99 →
      transition_state_leaf n = some (pad2 n.toNat) ∧
      zmatrix_leaf n = some (pad2 n.toNat) ∧
      vrctst_leaf n = some (pad2 n.toNat) ∧
      (pad2 n.toNat).length = 2 ∧
      strToNat (pad2 n.toNat) = n.toNat) ∧
    transition_state_leaf 100 = none ∧ transition_state_leaf (-1) = none ∧
    zmatrix_leaf 100 = none ∧ zmatrix_leaf (-1) = none ∧
    vrctst_leaf 100 = none ∧ vrctst_leaf (-1) = none := by
  refine ⟨fun n h1 h2 => ?_, by decide, by decide, by decide, by decide,
    by decide, by decide⟩
  have hm : n.toNat < 100 := by omega
  refine ⟨?_, ?_, ?_, (pad2_roundtrip n.toNat hm).1, (pad2_roundtrip n.toNat hm).2⟩ <;>
    · simp only [transition_state_leaf, zmatrix_leaf, vrctst_leaf]
      rw [if_pos ⟨h1, h2⟩]

/-- Witness for C6 at `n = 7`. -/
theorem numeric_leaf_contract_witness :
    transition_state_leaf 7 = some (pad2 (7 : Int).toNat) ∧
    strToNat (pad2 (7 : Int).toNat) = (7 : Int).toNat :=
  ⟨(numeric_leaf_contract.1 7 (by decide) (by decide)).1,
   (numeric_leaf_contract.1 7 (by decide) (by decide)).2.2.2.2⟩

/-! ### Claim C10: build-number rollover -/

/-- C10: `get_next_build_number` maps every integer, negative included, to
its residue modulo 10 in `[0, 9]` (Python's non-negative remainder), never
failing on an integer input; in particular it sends -1 to 9. -/
theorem get_next_build_number_range :
    (∀ n : Int, 0 ≤ get_next_build_number n ∧ get_next_build_number n ≤ 9 ∧
      (10 : Int) ∣ (n - get_next_build_number n)) ∧
    get_next_build_number (-1) = 9 := by
  refine ⟨fun n => ⟨?_, ?_, ⟨n / 10, ?_⟩⟩, by decide⟩ <;>
    · unfold get_next_build_number
      omega

/-! ### Claims C7 and C8: sub-run leaf -/

/-- C7: for `0 <= macro_idx < 26` and any integer `micro_idx`,
`subrun_leaf` returns the uppercase letter at position `macro_idx`
followed by the zero-padded-to-width-2 `micro_idx` (so
`subrun_leaf 0 3 = 'A03'`), and it fails for every `macro_idx >= 26`. -/
theorem subrun_leaf_contract :
    (∀ macro_idx micro_idx : Int, 0 ≤ macro_idx → macro_idx < 26 →
      subrun_leaf macro_idx micro_idx =
        some ⟨ascii_uppercase.getD macro_idx.toNat 'A' :: (pad2w micro_idx).data⟩) ∧
    (∀ macro_idx micro_idx : Int, 26 ≤ macro_idx →
      subrun_leaf macro_idx micro_idx = none) ∧
    subrun_leaf 0 3 = some "A03" := by
  refine ⟨fun ma mi h1 h2 => ?_, fun ma mi h => ?_, by decide⟩
  · unfold subrun_leaf
    rw [if_pos h2, if_pos h1, if_pos ⟨h1, h2⟩]
  · unfold subrun_leaf
    rw [if_neg (by omega)]

/-- Witness for C7 at `(0, 3)` and `(26, 0)`. -/
theorem subrun_leaf_contract_witness :
    subrun_leaf 0 3 =
      some ⟨ascii_uppercase.getD (0 : Int).toNat 'A' :: (pad2w 3).data⟩ ∧
    subrun_leaf 26 0 = none :=
  ⟨subrun_leaf_contract.1 0 3 (by decide) (by decide),
   subrun_leaf_contract.2.1 26 0 (by decide)⟩

/-- C8: `subrun_leaf` places no lower bound on the macro index: for
`-26 <= macro_idx <= -1` and `0 <= micro_idx <= 99` it does not fail, and
the letter is selected by wrap-around indexing from the end of the
alphabet (position `macro_idx + 26`). -/
theorem subrun_leaf_wraparound :
    ∀ macro_idx micro_idx : Int, -26 ≤ macro_idx → macro_idx ≤ -1 →
      0 ≤ micro_idx → micro_idx ≤ 99 →
      subrun_leaf macro_idx micro_idx =
        some ⟨ascii_uppercase.getD (macro_idx + 26).toNat 'A' ::
          (pad2w micro_idx).data⟩ ∧
      subrun_leaf macro_idx micro_idx ≠ none := by
  intro ma mi h1 h2 h3 h4
  have heq : subrun_leaf ma mi =
      some ⟨ascii_uppercase.getD (ma + 26).toNat 'A' :: (pad2w mi).data⟩ := by
    unfold subrun_leaf
    rw [if_pos (by omega : ma < 26), if_neg (by omega : ¬ 0 ≤ ma),
      if_pos (by constructor <;> omega)]
  exact ⟨heq, by rw [heq]; exact Option.some_ne_none _⟩

/-- Witness for C8 at `(-1, 0)`: the result is `Z00`, not a failure. -/
theorem subrun_leaf_wraparound_witness :
    subrun_leaf (-1) 0 = some "Z00" ∧ subrun_leaf (-1) 0 ≠ none :=
  ⟨((subrun_leaf_wraparound (-1) 0 (by decide) (by decide) (by decide)
      (by decide)).1).trans (by decide),
   (subrun_leaf_wraparound (-1) 0 (by decide) (by decide) (by decide)
      (by decide)).2⟩

/-! ### Claim C9: identifier validators are the identity on valid input -/

/-- C9: `conformer_branch`, `conformer_leaf` and `tau_leaf` return their
input unchanged whenever its first character is the required tag
(`'r'`/`'c'`/`'t'`) and the remainder satisfies the random-string
identifier predicate. -/
theorem id_validators_identity (isRSI : String → Bool)
    (rid cid tid : String) :
    (rid.data.head? = some 'r' → isRSI ⟨rid.data.tail⟩ = true →
      conformer_branch isRSI rid = some rid) ∧
    (cid.data.head? = some 'c' → isRSI ⟨cid.data.tail⟩ = true →
      conformer_leaf isRSI cid = some cid) ∧
    (tid.data.head? = some 't' → isRSI ⟨tid.data.tail⟩ = true →
      tau_leaf isRSI tid = some tid) := by
  refine ⟨fun h1 h2 => ?_, fun h1 h2 => ?_, fun h1 h2 => ?_⟩
  · unfold conformer_branch
    cases hd : rid.data with
    | nil => rw [hd] at h1; cases h1
    | cons c rest =>
      rw [hd] at h1 h2
      simp only [List.head?_cons, Option.some.injEq] at h1
      simp only [List.tail_cons] at h2
      simp only [hd]
      rw [if_pos ⟨h1, h2⟩]
  · unfold conformer_leaf
    cases hd : cid.data with
    | nil => rw [hd] at h1; cases h1
    | cons c rest =>
      rw [hd] at h1 h2
      simp only [List.head?_cons, Option.some.injEq] at h1
      simp only [List.tail_cons] at h2
      simp only [hd]
      rw [if_pos ⟨h1, h2⟩]
  · unfold tau_leaf
    cases hd : tid.data with
    | nil => rw [hd] at h1; cases h1
    | cons c rest =>
      rw [hd] at h1 h2
      simp only [List.head?_cons, Option.some.injEq] at h1
      simp only [List.tail_cons] at h2
      simp only [hd]
      rw [if_pos ⟨h1, h2⟩]

/-- Witness for C9 at concrete identifiers with a trivially satisfied
random-string predicate. -/
theorem id_validators_identity_witness :
    conformer_branch (fun _ => true) "rAB12cd" = some "rAB12cd" ∧
    conformer_leaf (fun _ => true) "cAB12cd" = some "cAB12cd" ∧
    tau_leaf (fun _ => true) "tAB12cd" = some "tAB12cd" :=
  ⟨(id_validators_identity (fun _ => true) "rAB12cd" "cAB12cd" "tAB12cd").1
      (by decide) rfl,
   (id_validators_identity (fun _ => true) "rAB12cd" "cAB12cd" "tAB12cd").2.1
      (by decide) rfl,
   (id_validators_identity (fun _ => true) "rAB12cd" "cAB12cd" "tAB12cd").2.2
      (by decide) rfl⟩

/-! ### Claim C4: output character sets -/

theorem digitChar_isDigit : ∀ d : Nat, d < 10 → (digitChar d).isDigit = true := by
  decide

theorem natCharsAux_digits :
    ∀ (fuel n : Nat) (c : Char), c ∈ natCharsAux fuel n → c.isDigit = true
  | 0, _, c, h => absurd h (List.not_mem_nil c)
  | fuel + 1, n, c, h => by
    simp only [natCharsAux] at h
    by_cases h10 : n < 10
    · rw [if_pos h10] at h
      rw [List.mem_singleton.mp h]
      exact digitChar_isDigit n h10
    · rw [if_neg h10] at h
      rcases List.mem_append.mp h with h1 | h2
      · exact natCharsAux_digits fuel (n / 10) c h1
      · rw [List.mem_singleton.mp h2]
        exact digitChar_isDigit (n % 10) (Nat.mod_lt n (by omega))

theorem natChars_digits (n : Nat) (c : Char) (h : c ∈ natChars n) :
    c.isDigit = true :=
  natCharsAux_digits (n + 1) n c h

/-- Every character of a 2-decimal rendering is a digit, a minus sign, a
decimal point or an underscore. -/
theorem format2f_chars (q : ℚ) (c : Char) (h : c ∈ (format2f q).data) :
    scanChar c = true := by
  unfold format2f at h
  rcases List.mem_append.mp h with h1 | h2
  · rcases List.mem_append.mp h1 with h3 | h4
    · by_cases hn : round (q * 100) < 0
      · rw [if_pos hn] at h3
        rw [List.mem_singleton.mp h3]
        decide
      · rw [if_neg hn] at h3
        exact absurd h3 (List.not_mem_nil c)
    · have := natChars_digits _ c h4
      simp [scanChar, this]
  · rcases List.mem_cons.mp h2 with h5 | h6
    · rw [h5]; decide
    · unfold padLeft at h6
      rcases List.mem_append.mp h6 with h7 | h8
      · rw [List.eq_of_mem_replicate h7]; decide
      · have := natChars_digits _ c h8
        simp [scanChar, this]

/-- Membership in a separator join comes from the separator or one of the
parts. -/
theorem sepJoin_mem {sep : List Char} :
    ∀ {parts : List (List Char)} {c : Char}, c ∈ sepJoin sep parts →
      c ∈ sep ∨ ∃ p ∈ parts, c ∈ p
  | [], c, h => absurd h (List.not_mem_nil c)
  | [x], _, h => Or.inr ⟨x, List.mem_cons_self x [], h⟩
  | x :: y :: ys, c, h => by
    simp only [sepJoin] at h
    rcases List.mem_append.mp h with h1 | h2
    · rcases List.mem_append.mp h1 with h3 | h4
      · exact Or.inr ⟨x, List.mem_cons_self x (y :: ys), h3⟩
      · exact Or.inl h4
    · rcases @sepJoin_mem sep (y :: ys) c h2 with h5 | ⟨p, hp, hcp⟩
      · exact Or.inl h5
      · exact Or.inr ⟨p, List.mem_cons_of_mem x hp, hcp⟩

/-- C4 counterexample: the scan leaf for the single coordinate value 1.0
is the string `1.00`, which contains a decimal point, a character outside
the spec's claimed safe set (alphanumerics, underscore, hyphen, `'@'` and
the path separator). -/
theorem scan_leaf_not_spec_safe :
    ((scan_leaf [1]).data.all specSafeChar) = false := by
  have h1 : round ((1 : ℚ) * 100) = (100 : Int) := by norm_num [round_eq]
  simp only [scan_leaf, format2f, List.map_cons, List.map_nil, h1]
  decide

/-- C4 amended: over every list of coordinate values, the `scan_leaf` and
`cscan_leaf` outputs consist of digits, minus signs, underscores and
decimal points; the decimal point falls outside the spec's claimed
alphanumeric/underscore/hyphen/`'@'` character set. -/
theorem scan_leaf_charset (coo_vals : List ℚ) :
    ((scan_leaf coo_vals).data.all scanChar) = true ∧
    ((cscan_leaf coo_vals).data.all scanChar) = true := by
  have main : ∀ c ∈ sepJoin ['_'] (coo_vals.map fun v => (format2f v).data),
      scanChar c = true := by
    intro c hc
    rcases sepJoin_mem hc with h1 | ⟨p, hp, hcp⟩
    · rw [List.mem_singleton.mp h1]; decide
    · rcases List.mem_map.mp hp with ⟨v, _, rfl⟩
      exact format2f_chars v c hcp
  exact ⟨List.all_eq_true.mpr main, List.all_eq_true.mpr main⟩
